import Mathlib

/-!
Shallow embedding of `src/FN/dqn_agent.py` (DeepQNetworkAgent,
CatcherObserver, DeepQNetworkTrainer).

Conventions of the embedding:
- Python floats are modelled as exact rationals `ℚ`.
- A numpy value vector is a `List ℚ`; a batch prediction `model.predict`
  is a function from a state to its value vector, applied row-wise.
- Python division raises `ZeroDivisionError` on a zero divisor, so the
  divisions performed by the trainer are embedded through `pydiv`, which
  returns `Except String ℚ`.
- Keras model/weight objects are abstracted by a type parameter `P`
  (the parameter vector); `predict` functions over `P` are universally
  quantified in the theorems.
- External effects (TensorBoard logging, `agent.save`, printing) have no
  bearing on the claims and are omitted from the embedded state changes;
  every numeric state change of the embedded lines is kept.
-/

namespace DQN

/-- An environment transition, as consumed by `DeepQNetworkAgent.update`:
state `s`, action index `a`, reward `r`, next state `n_s`, done flag `d`. -/
structure Experience (σ : Type) where
  s : σ
  a : ℕ
  r : ℚ
  n_s : σ
  d : Bool
deriving DecidableEq

/-- `np.max` over a value vector, as used in `reward += gamma * np.max(future[i])`
(line 75). On the empty vector (never produced by a model with at least one
action) we return 0; the claims that use `maxQ` assume a nonempty vector and
also establish that `maxQ` is the maximum of its elements. -/
def maxQ : List ℚ → ℚ
  | [] => 0
  | x :: xs => xs.foldl max x

/-- Embeds the regression-target construction of `DeepQNetworkAgent.update`
(src/FN/dqn_agent.py lines 65-78):

    estimateds = self.model.predict(states)
    future = self._teacher_model.predict(n_states)
    for i, e in enumerate(experiences):
        reward = e.r
        if not e.d:
            reward += gamma * np.max(future[i])
        estimateds[i][e.a] = reward

Row `i` of the result is the trainable model's prediction for `e.s` with
index `e.a` overwritten by the computed target. `model` is the trainable
estimator's prediction function, `teacher` the frozen teacher model's.
The final `train_on_batch` call (the gradient step on these targets) is an
external effect on the weights and is not part of the target construction. -/
def update_targets {σ : Type} (model teacher : σ → List ℚ) (gamma : ℚ)
    (experiences : List (Experience σ)) : List (List ℚ) :=
  experiences.map (fun e =>
    let estimated := model e.s
    let reward := if e.d then e.r else e.r + gamma * maxQ (teacher e.n_s)
    estimated.set e.a reward)

/-- A Keras optimizer; the code only ever constructs `K.optimizers.Adam(lr=...)`,
so the embedding records the constructor and its learning rate. -/
structure Optimizer where
  lr : ℚ
deriving DecidableEq

/-- `K.optimizers.Adam(lr=learning_rate)` (line 143). -/
def adam (lr : ℚ) : Optimizer := ⟨lr⟩

/-- The mutable state of `DeepQNetworkAgent`: exploration rate `epsilon`,
the `initialized` flag, the trainable model's weights, the frozen teacher
model's weights (`_teacher_model`), and the optimizer bound by `compile`.
Before `initialize` the models and optimizer do not exist (`none`). -/
structure AgentState (P : Type) where
  epsilon : ℚ
  initialized : Bool
  model : Option P
  teacher_model : Option P
  optimizer : Option Optimizer
deriving DecidableEq

/-- Embeds `DeepQNetworkAgent.initialize` (lines 21-30) together with the
`make_model`/`make_test_model` body it calls: a fresh model is built (its
freshly initialized weights are `freshModel`), `_teacher_model` is set to
`clone_model(self.model)` (a clone with its own fresh weights,
`freshTeacher`), the model is compiled with `optimizer`, and
`self.initialized = True`. Note the source performs no check of a prior
`initialized` state: the assignments happen unconditionally. -/
def initAgent {P : Type} (ag : AgentState P) (freshModel freshTeacher : P)
    (opt : Optimizer) : AgentState P :=
  { ag with
    model := some freshModel
    teacher_model := some freshTeacher
    optimizer := some opt
    initialized := true }

/-- Embeds `DeepQNetworkAgent.update_teacher` (lines 81-82):
`self._teacher_model.set_weights(self.model.get_weights())` — a full copy of
the trainable model's parameters into the teacher model. -/
def update_teacher {P : Type} (ag : AgentState P) : AgentState P :=
  { ag with teacher_model := ag.model }

/-- `model.predict(np.array([state]))[0]` for a model with weights `p` and
prediction function `predict`, lifted over the `Option` of an unbuilt model;
`DeepQNetworkAgent.estimate` is `estimateWith predict ag.model`. -/
def estimateWith {P σ : Type} (predict : P → σ → List ℚ) (m : Option P)
    (state : σ) : Option (List ℚ) :=
  m.map (fun p => predict p state)

/-- Python `/`: raises `ZeroDivisionError` on a zero divisor. -/
def pydiv (a b : ℚ) : Except String ℚ :=
  if b = 0 then .error "ZeroDivisionError" else .ok (a / b)

/-- The fields of `DeepQNetworkTrainer` that the embedded methods read or
write. `training_episode` is set to `episode_count` by `train` and then
decremented by `buffer_full`, so it is an integer (the source never guards
it against reaching zero or below). -/
structure TrainerState where
  initial_epsilon : ℚ
  final_epsilon : ℚ
  learning_rate : ℚ
  teacher_update_freq : ℕ
  report_interval : ℕ
  training_count : ℕ
  training_episode : ℤ
  loss : ℚ
deriving DecidableEq

/-- Embeds `DeepQNetworkTrainer.buffer_full` (lines 142-147):

    optimizer = K.optimizers.Adam(lr=self.learning_rate)
    agent.initialize(self.experiences, optimizer)
    self.callback.set_model(agent.model)
    self.training_episode -= episode
    agent.epsilon = self.initial_epsilon

`episode` is the episode index the framework's train loop passes when the
buffer first reaches capacity (the number of episodes consumed by filling).
`callback.set_model` is logging glue with no numeric effect. The fresh
weights built inside `agent.initialize` are `freshModel`/`freshTeacher`. -/
def buffer_full {P : Type} (episode : ℤ) (tr : TrainerState) (ag : AgentState P)
    (freshModel freshTeacher : P) : TrainerState × AgentState P :=
  let optimizer := adam tr.learning_rate
  let ag1 := initAgent ag freshModel freshTeacher optimizer
  let tr1 := { tr with training_episode := tr.training_episode - episode }
  let ag2 := { ag1 with epsilon := tr.initial_epsilon }
  (tr1, ag2)

/-- The per-episode ε update of `DeepQNetworkTrainer.episode_end`
(lines 165-167), for nonzero `R`:

    diff = (self.initial_epsilon - self.final_epsilon)
    decay = diff / self.training_episode
    agent.epsilon = max(agent.epsilon - decay, self.final_epsilon)

`i0` is `initial_epsilon`, `f` is `final_epsilon`, `R` is `training_episode`. -/
def epsilonDecay (i0 f : ℚ) (R : ℤ) (eps : ℚ) : ℚ :=
  max (eps - (i0 - f) / (R : ℚ)) f

/-- Embeds the state changes of `DeepQNetworkTrainer.episode_end`
(lines 153-168):

    self.loss = self.loss / step_count
    if agent.initialized:
        ... (write_log / save / update_teacher triggers: external effects)
        diff = (self.initial_epsilon - self.final_epsilon)
        decay = diff / self.training_episode
        agent.epsilon = max(agent.epsilon - decay, self.final_epsilon)
        self.training_count += 1

Both divisions go through `pydiv` because Python raises `ZeroDivisionError`
on a zero divisor; the source contains no guard on either division. The
reward bookkeeping, logging, checkpointing and the `update_teacher` trigger
touch no field the claims concern and are omitted. -/
def episode_end {P : Type} (step_count : ℕ) (tr : TrainerState)
    (ag : AgentState P) : Except String (TrainerState × AgentState P) := do
  let meanLoss ← pydiv tr.loss (step_count : ℚ)
  let tr1 := { tr with loss := meanLoss }
  if ag.initialized then
    let diff := tr1.initial_epsilon - tr1.final_epsilon
    let decay ← pydiv diff ((tr1.training_episode : ℤ) : ℚ)
    let ag1 := { ag with epsilon := max (ag.epsilon - decay) tr1.final_epsilon }
    let tr2 := { tr1 with training_count := tr1.training_count + 1 }
    return (tr2, ag1)
  else
    return (tr1, ag)

/-- A `collections.deque` with `maxlen`: appending keeps the last `maxlen`
elements (the oldest are evicted from the front). -/
def dequeAppend {F : Type} (maxlen : ℕ) (fs : List F) (x : F) : List F :=
  let l := fs ++ [x]
  l.drop (l.length - maxlen)

/-- Embeds `CatcherObserver.transform` (lines 94-108) acting on the
`_frames` deque (`deque(maxlen=frame_count)`, line 92):

    normalized = ... (grayscale, resize, / 255.0)
    if len(self._frames) == 0:
        for i in range(self.frame_count):
            self._frames.append(normalized)
    else:
        self._frames.append(normalized)
    feature = np.array(self._frames)
    feature = np.transpose(feature, (1, 2, 0))

The grayscale/resize/normalize preprocessing is the external `preprocess`
function (PIL/numpy glue). The returned feature is `np.array(frames)`
transposed from `(f, w, h)` to `(w, h, f)`: its last dimension is the number
of frames in the deque, so the embedding returns the frame list itself as
the feature (first component: the new deque contents; second: the feature's
frames, whose length is the feature's last dimension). -/
def transformStep {R F : Type} (frame_count : ℕ) (preprocess : R → F)
    (frames : List F) (raw : R) : List F × List F :=
  let normalized := preprocess raw
  let frames1 :=
    if frames.isEmpty then
      (List.range frame_count).foldl (fun acc _ => dequeAppend frame_count acc normalized) frames
    else
      dequeAppend frame_count frames normalized
  (frames1, frames1)

/-- A sequence of `transform` calls: returns the final deque contents and
the list of features returned by the successive calls. -/
def runTransform {R F : Type} (frame_count : ℕ) (preprocess : R → F) :
    List F → List R → List F × List (List F)
  | frames, [] => (frames, [])
  | frames, r :: rs =>
    let step := transformStep frame_count preprocess frames r
    let rest := runTransform frame_count preprocess step.1 rs
    (rest.1, step.2 :: rest.2)

/-! Helper lemmas. -/

/-- The initial accumulator is a lower bound of `foldl max`. -/
lemma le_foldl_max (x : ℚ) (l : List ℚ) : x ≤ l.foldl max x := by
  induction l generalizing x with
  | nil => exact le_refl x
  | cons y ys ih => exact le_trans (le_max_left x y) (ih (max x y))

/-- Every element of the list is a lower bound of `foldl max`. -/
lemma elem_le_foldl_max (x : ℚ) (l : List ℚ) : ∀ v ∈ l, v ≤ l.foldl max x := by
  induction l generalizing x with
  | nil => intro v hv; cases hv
  | cons y ys ih =>
    intro v hv
    rcases List.mem_cons.mp hv with hv | hv
    · subst hv
      exact le_trans (le_max_right x v) (le_foldl_max (max x v) ys)
    · exact ih (max x y) v hv

/-- `foldl max` returns the accumulator or a list element. -/
lemma foldl_max_mem (x : ℚ) (l : List ℚ) : l.foldl max x = x ∨ l.foldl max x ∈ l := by
  induction l generalizing x with
  | nil => exact Or.inl rfl
  | cons y ys ih =>
    rcases ih (max x y) with h | h
    · rcases max_choice x y with hxy | hxy
      · exact Or.inl (by rw [List.foldl_cons, h, hxy])
      · exact Or.inr (by rw [List.foldl_cons, h, hxy]; exact List.mem_cons_self y ys)
    · exact Or.inr (List.mem_cons_of_mem y h)

/-- `maxQ` of a nonempty vector is an element of the vector and an upper
bound of all its elements: it is `np.max`. -/
lemma maxQ_spec (l : List ℚ) (h : l ≠ []) :
    maxQ l ∈ l ∧ ∀ v ∈ l, v ≤ maxQ l := by
  cases l with
  | nil => exact absurd rfl h
  | cons x xs =>
    constructor
    · rcases foldl_max_mem x xs with hm | hm
      · rw [maxQ, hm]; exact List.mem_cons_self x xs
      · exact List.mem_cons_of_mem x hm
    · intro v hv
      rcases List.mem_cons.mp hv with hv | hv
      · subst hv; exact le_foldl_max v xs
      · exact elem_le_foldl_max x xs v hv

/-- Row `i` of `update_targets` in closed form: the trainable model's
prediction for `es[i].s` with index `es[i].a` overwritten by the target. -/
lemma update_targets_getD {σ : Type} (model teacher : σ → List ℚ) (gamma : ℚ)
    (es : List (Experience σ)) (i : ℕ) (hi : i < es.length) :
    (update_targets model teacher gamma es).getD i [] =
      (model es[i].s).set es[i].a
        (if es[i].d then es[i].r else es[i].r + gamma * maxQ (teacher es[i].n_s)) := by
  simp [update_targets, List.getD_eq_getElem?_getD, List.getElem?_map,
    List.getElem?_eq_getElem hi]

/-! Claim theorems. -/

/-- C1: for every experience `(s, a, r, n_s, d)` in a batch passed to
`update` with `d = true`, the regression target that `update` writes at
index `a` equals `r` exactly, independent of the target (teacher)
estimator's output for `n_s` (the theorem holds for every `teacher`
function, and the computed value does not mention it). -/
theorem update_target_terminal_eq_reward {σ : Type}
    (model teacher : σ → List ℚ) (gamma : ℚ) (es : List (Experience σ))
    (i : ℕ) (hi : i < es.length) (hd : es[i].d = true)
    (ha : es[i].a < (model es[i].s).length) :
    ((update_targets model teacher gamma es).getD i []).getD es[i].a 0 =
      es[i].r := by
  rw [update_targets_getD model teacher gamma es i hi, hd]
  simp [List.getD_eq_getElem?_getD, List.getElem?_set_self ha]

/-- Witness for C1 on a concrete batch: one terminal experience with
reward 3 and action 1; the target row holds 3 at index 1, even though the
teacher predicts `[5, 7]` for the next state. -/
theorem update_target_terminal_eq_reward_witness :
    (0 < ([({s := 0, a := 1, r := 3, n_s := 9, d := true} : Experience ℕ)]).length) ∧
    ((update_targets (fun _ => [1, 2]) (fun _ => [5, 7]) (1/2)
        [({s := 0, a := 1, r := 3, n_s := 9, d := true} : Experience ℕ)]).getD 0 []).getD 1 0 = 3 :=
  ⟨by decide,
   update_target_terminal_eq_reward (fun _ => [1, 2]) (fun _ => [5, 7]) (1/2)
     [{s := 0, a := 1, r := 3, n_s := 9, d := true}] 0 (by decide) (by decide) (by decide)⟩

/-- C2: for every experience `(s, a, r, n_s, d)` in a batch passed to
`update` with `d = false`, the regression target written at index `a`
equals `r + gamma * maxQ (teacher n_s)`, where `maxQ` is the maximum of
the frozen teacher estimator's prediction vector for `n_s` (second and
third conjuncts); the value does not depend on the trainable `model`,
which is universally quantified and absent from the right-hand side. -/
theorem update_target_nonterminal_bootstrap {σ : Type}
    (model teacher : σ → List ℚ) (gamma : ℚ) (es : List (Experience σ))
    (i : ℕ) (hi : i < es.length) (hd : es[i].d = false)
    (ha : es[i].a < (model es[i].s).length)
    (hne : teacher es[i].n_s ≠ []) :
    ((update_targets model teacher gamma es).getD i []).getD es[i].a 0 =
        es[i].r + gamma * maxQ (teacher es[i].n_s)
    ∧ maxQ (teacher es[i].n_s) ∈ teacher es[i].n_s
    ∧ ∀ v ∈ teacher es[i].n_s, v ≤ maxQ (teacher es[i].n_s) := by
  refine ⟨?_, (maxQ_spec _ hne).1, (maxQ_spec _ hne).2⟩
  rw [update_targets_getD model teacher gamma es i hi, hd]
  simp [List.getD_eq_getElem?_getD, List.getElem?_set_self ha]

/-- Witness for C2 on a concrete batch: one non-terminal experience with
reward 3 and action 0, teacher prediction `[5, 7]`, discount 1/2; the
target is `3 + 1/2 * 7 = 13/2`. -/
theorem update_target_nonterminal_bootstrap_witness :
    (0 < ([({s := 0, a := 0, r := 3, n_s := 9, d := false} : Experience ℕ)]).length) ∧
    (((update_targets (fun _ => [1, 2]) (fun _ => [5, 7]) (1/2)
        [({s := 0, a := 0, r := 3, n_s := 9, d := false} : Experience ℕ)]).getD 0 []).getD 0 0 =
          3 + 1/2 * maxQ [5, 7]
     ∧ maxQ [5, 7] ∈ [(5:ℚ), 7]
     ∧ ∀ v ∈ [(5:ℚ), 7], v ≤ maxQ [5, 7]) :=
  ⟨by decide,
   update_target_nonterminal_bootstrap (fun _ => [1, 2]) (fun _ => [5, 7]) (1/2)
     [{s := 0, a := 0, r := 3, n_s := 9, d := false}] 0 (by decide) (by decide)
     (by decide) (by decide)⟩

/-- C3: for every batch and every experience in it, the regression-target
row that `update` constructs differs from the trainable estimator's current
prediction for `s` only at index `a`: every other index is unchanged, and
the row has the same length as the prediction. Two experiences sharing the
same state occupy distinct rows of `estimateds`, so the statement holds per
row for every batch, including batches with repeated states. -/
theorem update_target_frame_other_indices {σ : Type}
    (model teacher : σ → List ℚ) (gamma : ℚ) (es : List (Experience σ))
    (i : ℕ) (hi : i < es.length) (j : ℕ)
    (hj : j < (model es[i].s).length) (hja : j ≠ es[i].a) :
    ((update_targets model teacher gamma es).getD i []).getD j 0 =
        (model es[i].s).getD j 0
    ∧ ((update_targets model teacher gamma es).getD i []).length =
        (model es[i].s).length := by
  rw [update_targets_getD model teacher gamma es i hi]
  constructor
  · simp [List.getD_eq_getElem?_getD, List.getElem?_set_ne (Ne.symm hja)]
  · exact List.length_set _ _ _

/-- Witness for C3 on a concrete batch of two experiences sharing the same
state `s = 0`: row 1 (action 1) keeps the model's value 1 at index 0 and
keeps length 2. -/
theorem update_target_frame_other_indices_witness :
    (1 < ([({s := 0, a := 0, r := 3, n_s := 9, d := false} : Experience ℕ),
           {s := 0, a := 1, r := 4, n_s := 9, d := true}]).length) ∧
    (((update_targets (fun _ => [1, 2]) (fun _ => [5, 7]) (1/2)
        [({s := 0, a := 0, r := 3, n_s := 9, d := false} : Experience ℕ),
         {s := 0, a := 1, r := 4, n_s := 9, d := true}]).getD 1 []).getD 0 0 = 1
     ∧ ((update_targets (fun _ => [1, 2]) (fun _ => [5, 7]) (1/2)
        [({s := 0, a := 0, r := 3, n_s := 9, d := false} : Experience ℕ),
         {s := 0, a := 1, r := 4, n_s := 9, d := true}]).getD 1 []).length = 2) :=
  ⟨by decide,
   update_target_frame_other_indices (fun _ => [1, 2]) (fun _ => [5, 7]) (1/2)
     [{s := 0, a := 0, r := 3, n_s := 9, d := false},
      {s := 0, a := 1, r := 4, n_s := 9, d := true}] 1 (by decide) 0 (by decide) (by decide)⟩

/-- C4: after `update_teacher` returns, the frozen teacher model's
parameters equal the trainable model's parameters in full, so running the
model's prediction function on the same input through either parameter set
yields identical output vectors (until either is next mutated — the
embedding is functional, so this is the state returned by
`update_teacher`). -/
theorem update_teacher_syncs_estimates {P σ : Type}
    (predict : P → σ → List ℚ) (ag : AgentState P) (state : σ) :
    (update_teacher ag).teacher_model = (update_teacher ag).model
    ∧ estimateWith predict (update_teacher ag).teacher_model state =
        estimateWith predict (update_teacher ag).model state :=
  ⟨rfl, rfl⟩

/-- C5 (refuted — the code divides by zero): if the replay buffer becomes
full for the first time on the very last episode of the configured budget,
`buffer_full` computes `training_episode = 0`, and the next `episode_end`
of an initialized agent evaluates `decay = diff / self.training_episode`
with a zero divisor, raising `ZeroDivisionError` — the decay is not a
no-op and the denominator is computed as zero, contrary to the claim.
Concretely: a budget of 5 episodes, buffer first full after 5 episodes. -/
theorem decay_denominator_zero_division :
    ((buffer_full 5
        { initial_epsilon := 1/10, final_epsilon := 1/1000, learning_rate := 1/1000,
          teacher_update_freq := 5, report_interval := 10, training_count := 0,
          training_episode := 5, loss := 0 }
        ({ epsilon := 1, initialized := false, model := none,
           teacher_model := none, optimizer := none } : AgentState Unit)
        () ()).1.training_episode = 0)
    ∧ ((buffer_full 5
        { initial_epsilon := 1/10, final_epsilon := 1/1000, learning_rate := 1/1000,
          teacher_update_freq := 5, report_interval := 10, training_count := 0,
          training_episode := 5, loss := 0 }
        ({ epsilon := 1, initialized := false, model := none,
           teacher_model := none, optimizer := none } : AgentState Unit)
        () ()).2.initialized = true)
    ∧ episode_end 7
        (buffer_full 5
          { initial_epsilon := 1/10, final_epsilon := 1/1000, learning_rate := 1/1000,
            teacher_update_freq := 5, report_interval := 10, training_count := 0,
            training_episode := 5, loss := 0 }
          ({ epsilon := 1, initialized := false, model := none,
             teacher_model := none, optimizer := none } : AgentState Unit)
          () ()).1
        (buffer_full 5
          { initial_epsilon := 1/10, final_epsilon := 1/1000, learning_rate := 1/1000,
            teacher_update_freq := 5, report_interval := 10, training_count := 0,
            training_episode := 5, loss := 0 }
          ({ epsilon := 1, initialized := false, model := none,
             teacher_model := none, optimizer := none } : AgentState Unit)
          () ()).2
      = Except.error "ZeroDivisionError" :=
  ⟨rfl, rfl, rfl⟩

/-- C6 (refuted — the code divides by zero): `episode_end` computes
`self.loss = self.loss / step_count` unconditionally; when an episode ends
with `step_count = 0`, this raises `ZeroDivisionError` for every trainer
and agent state — there is no guard in the source. -/
theorem episode_end_zero_steps_division {P : Type}
    (tr : TrainerState) (ag : AgentState P) :
    episode_end 0 tr ag = Except.error "ZeroDivisionError" :=
  rfl

/-- C8 (refuted — a second call silently rebuilds): calling the agent's
`initialize` (embedded as `initAgent`) on an already-initialized agent
whose trained weights are `some 42` returns normally (no error) and
replaces both the model and the teacher with freshly built weights,
discarding the trained ones — it is neither a no-op nor an error. -/
theorem second_init_call_rebuilds :
    ((initAgent
        ({ epsilon := 1/10, initialized := true, model := some 42,
           teacher_model := some 42, optimizer := some (adam (1/1000)) } : AgentState ℕ)
        7 8 (adam (1/1000))).initialized = true)
    ∧ ((initAgent
        ({ epsilon := 1/10, initialized := true, model := some 42,
           teacher_model := some 42, optimizer := some (adam (1/1000)) } : AgentState ℕ)
        7 8 (adam (1/1000))).model = some 7)
    ∧ ((initAgent
        ({ epsilon := 1/10, initialized := true, model := some 42,
           teacher_model := some 42, optimizer := some (adam (1/1000)) } : AgentState ℕ)
        7 8 (adam (1/1000))).model ≠ some 42)
    ∧ ((initAgent
        ({ epsilon := 1/10, initialized := true, model := some 42,
           teacher_model := some 42, optimizer := some (adam (1/1000)) } : AgentState ℕ)
        7 8 (adam (1/1000))).teacher_model = some 8) := by
  refine ⟨rfl, rfl, by decide, rfl⟩

/-- C9: when the replay buffer first reaches capacity, `buffer_full`
performs all of: constructing the Adam optimizer with the configured
learning rate and binding it to the agent, initializing the agent,
resetting the agent's exploration rate to the configured
`initial_epsilon`, and reducing the remaining-episode decay denominator
`training_episode` by `episode`, the number of episodes consumed by
filling. -/
theorem buffer_full_transition_effects {P : Type} (episode : ℤ)
    (tr : TrainerState) (ag : AgentState P) (freshModel freshTeacher : P) :
    ((buffer_full episode tr ag freshModel freshTeacher).2.optimizer =
        some (adam tr.learning_rate))
    ∧ ((buffer_full episode tr ag freshModel freshTeacher).2.initialized = true)
    ∧ ((buffer_full episode tr ag freshModel freshTeacher).2.model = some freshModel)
    ∧ ((buffer_full episode tr ag freshModel freshTeacher).2.epsilon =
        tr.initial_epsilon)
    ∧ ((buffer_full episode tr ag freshModel freshTeacher).1.training_episode =
        tr.training_episode - episode) :=
  ⟨rfl, rfl, rfl, rfl, rfl⟩

/-- Closed form of the iterated ε decay: after `k` decay steps starting at
`i0`, ε equals `max (i0 - k * ((i0 - f) / R)) f`. -/
lemma epsilonDecay_iterate (i0 f : ℚ) (R : ℕ) (hf : f ≤ i0) (k : ℕ) :
    (epsilonDecay i0 f (R : ℤ))^[k] i0 =
      max (i0 - (k : ℚ) * ((i0 - f) / (R : ℚ))) f := by
  induction k with
  | zero =>
    simp [max_eq_left hf]
  | succ k ih =>
    have hd : 0 ≤ (i0 - f) / (R : ℚ) :=
      div_nonneg (sub_nonneg.mpr hf) (Nat.cast_nonneg R)
    rw [Function.iterate_succ_apply', ih]
    unfold epsilonDecay
    rw [Int.cast_natCast]
    rw [← max_sub_sub_right (i0 - (k : ℚ) * ((i0 - f) / (R : ℚ))) f ((i0 - f) / (R : ℚ))]
    rw [max_assoc, max_eq_right (sub_le_self f hd)]
    congr 1
    push_cast
    ring

/-- C7: once training starts, ε is decreased each episode by the fixed
decrement `(initial_epsilon - final_epsilon) / remaining_episodes` and
clamped with `max` at `final_epsilon` (this is `epsilonDecay`, the ε
update of `episode_end`). Under exact arithmetic, starting at `i0`, after
`R` decay steps ε equals `f` exactly; the sequence of ε values is
monotonically non-increasing; and ε never drops below `f` — given
`f ≤ i0` and `0 < R`. -/
theorem epsilon_decay_schedule (i0 f : ℚ) (R : ℕ) (hf : f ≤ i0) (hR : 0 < R) :
    ((epsilonDecay i0 f (R : ℤ))^[R] i0 = f)
    ∧ (∀ k : ℕ, (epsilonDecay i0 f (R : ℤ))^[k + 1] i0 ≤
        (epsilonDecay i0 f (R : ℤ))^[k] i0)
    ∧ (∀ k : ℕ, f ≤ (epsilonDecay i0 f (R : ℤ))^[k] i0) := by
  have hR0 : (R : ℚ) ≠ 0 := Nat.cast_ne_zero.mpr hR.ne'
  have hd : 0 ≤ (i0 - f) / (R : ℚ) :=
    div_nonneg (sub_nonneg.mpr hf) (Nat.cast_nonneg R)
  refine ⟨?_, ?_, ?_⟩
  · rw [epsilonDecay_iterate i0 f R hf R, mul_div_cancel₀ (i0 - f) hR0]
    simp
  · intro k
    rw [epsilonDecay_iterate i0 f R hf (k + 1), epsilonDecay_iterate i0 f R hf k]
    refine max_le_max ?_ (le_refl f)
    have : (k : ℚ) * ((i0 - f) / (R : ℚ)) ≤ ((k : ℚ) + 1) * ((i0 - f) / (R : ℚ)) := by
      nlinarith
    push_cast
    linarith
  · intro k
    rw [epsilonDecay_iterate i0 f R hf k]
    exact le_max_right _ _

/-- Witness for C7 at the concrete schedule `i0 = 1/10`, `f = 1/1000`,
`R = 3`: after three decay steps ε is exactly `1/1000`, never overshooting. -/
theorem epsilon_decay_schedule_witness :
    ((1/1000 : ℚ) ≤ 1/10) ∧ (0 < 3) ∧
    (((epsilonDecay (1/10) (1/1000) ((3 : ℕ) : ℤ))^[3] (1/10) = 1/1000)
     ∧ (∀ k : ℕ, (epsilonDecay (1/10) (1/1000) ((3 : ℕ) : ℤ))^[k + 1] (1/10) ≤
          (epsilonDecay (1/10) (1/1000) ((3 : ℕ) : ℤ))^[k] (1/10))
     ∧ (∀ k : ℕ, (1/1000 : ℚ) ≤ (epsilonDecay (1/10) (1/1000) ((3 : ℕ) : ℤ))^[k] (1/10))) :=
  ⟨by norm_num, by norm_num,
   epsilon_decay_schedule (1/10) (1/1000) 3 (by norm_num) (by norm_num)⟩

/-- Appending to a deque with `maxlen` keeps `min (length + 1) maxlen`
elements. -/
lemma dequeAppend_length {F : Type} (m : ℕ) (fs : List F) (x : F) :
    (dequeAppend m fs x).length = min (fs.length + 1) m := by
  simp only [dequeAppend, List.length_drop, List.length_append, List.length_cons,
    List.length_nil]
  omega

/-- Appending `n ≤ m` copies to an empty deque with `maxlen = m` (the
first-call fill loop of `transform`) yields `n` copies, no eviction. -/
lemma dequeAppend_fill (m : ℕ) {F : Type} (x : F) :
    ∀ n, n ≤ m →
      (List.range n).foldl (fun acc _ => dequeAppend m acc x) [] =
        List.replicate n x := by
  intro n
  induction n with
  | zero => intro _; rfl
  | succ k ih =>
    intro hn
    rw [List.range_succ, List.foldl_append, ih (Nat.le_of_succ_le hn)]
    simp only [List.foldl_cons, List.foldl_nil, dequeAppend]
    rw [← List.replicate_succ']
    have hlen : (List.replicate (k + 1) x).length - m = 0 := by
      simp only [List.length_replicate]; omega
    rw [hlen, List.drop_zero]

/-- One `transform` call preserves a full deque's length (and an empty
deque becomes full for any `frame_count` via the fill loop). -/
lemma transformStep_length {R F : Type} (fc : ℕ) (pre : R → F)
    (fs : List F) (r : R) (hlen : fs.length = fc) :
    (transformStep fc pre fs r).1.length = fc := by
  by_cases hfs : fs.isEmpty
  · have hnil : fs = [] := List.isEmpty_iff.mp hfs
    have hfc : fc = 0 := by rw [hnil] at hlen; simpa using hlen.symm
    simp [transformStep, hfs, hnil, hfc]
  · simp only [transformStep, hfs, Bool.false_eq_true, if_neg, ite_false]
    rw [dequeAppend_length, hlen]
    omega

/-- The run invariant: starting from a deque of exactly `fc` frames, every
later `transform` call returns a feature of `fc` frames and leaves the
deque at `fc` frames. -/
lemma runTransform_invariant {R F : Type} (fc : ℕ) (pre : R → F)
    (raws : List R) :
    ∀ fs : List F, fs.length = fc →
      (runTransform fc pre fs raws).1.length = fc
      ∧ ∀ feat ∈ (runTransform fc pre fs raws).2, feat.length = fc := by
  induction raws with
  | nil =>
    intro fs hlen
    exact ⟨hlen, by intro feat hfeat; cases hfeat⟩
  | cons r rs ih =>
    intro fs hlen
    have hstep := transformStep_length fc pre fs r hlen
    have hrest := ih (transformStep fc pre fs r).1 hstep
    refine ⟨hrest.1, ?_⟩
    intro feat hfeat
    rcases List.mem_cons.mp hfeat with hfeat | hfeat
    · rw [hfeat]; exact hstep
    · exact hrest.2 feat hfeat

/-- C10: for every sequence of `transform` calls (every nonempty raw-frame
sequence `r :: rs`), starting from the empty deque: the first call fills
the deque with `frame_count` copies of the first preprocessed frame; every
call (including the first) returns a feature whose frame dimension — the
last dimension after the `(f, w, h) → (w, h, f)` transpose — is exactly
`frame_count`; the deque holds exactly `frame_count` frames after the run;
and on a full deque a later call appends one preprocessed frame and evicts
the oldest. -/
theorem transform_frame_deque_invariant {R F : Type} (fc : ℕ) (hfc : 0 < fc)
    (pre : R → F) (r : R) (rs : List R) :
    ((runTransform fc pre [] (r :: rs)).2.head? =
        some (List.replicate fc (pre r)))
    ∧ (∀ feat ∈ (runTransform fc pre [] (r :: rs)).2, feat.length = fc)
    ∧ ((runTransform fc pre [] (r :: rs)).1.length = fc)
    ∧ (∀ (fs : List F) (x : R), fs.length = fc →
        (transformStep fc pre fs x).1 = fs.drop 1 ++ [pre x]) := by
  have hfill : (transformStep fc pre ([] : List F) r).1 = List.replicate fc (pre r) := by
    simp only [transformStep, List.isEmpty_nil, if_pos]
    exact dequeAppend_fill fc (pre r) fc (le_refl fc)
  have hfull : (transformStep fc pre ([] : List F) r).1.length = fc := by
    rw [hfill, List.length_replicate]
  have hinv := runTransform_invariant fc pre rs _ hfull
  refine ⟨?_, ?_, ?_, ?_⟩
  · show ((transformStep fc pre [] r).2 :: (runTransform fc pre (transformStep fc pre [] r).1 rs).2).head? = _
    rw [List.head?_cons]
    exact congrArg some hfill
  · intro feat hfeat
    rcases List.mem_cons.mp hfeat with hfeat | hfeat
    · rw [hfeat]; exact hfull
    · exact hinv.2 feat hfeat
  · exact hinv.1
  · intro fs x hlen
    cases fs with
    | nil => exact absurd (hlen.symm.trans rfl) (by simpa using hfc.ne')
    | cons y ys =>
      have hne : (y :: ys).isEmpty = false := rfl
      simp only [transformStep, hne, Bool.false_eq_true, ite_false, dequeAppend]
      have hlen1 : ys.length + 1 = fc := by simpa using hlen
      have hdrop : (y :: ys ++ [pre x]).length - fc = 1 := by
        simp only [List.length_append, List.length_cons, List.length_nil]
        omega
      rw [hdrop]
      simp

/-- Witness for C10 on a concrete run: `frame_count = 2`, identity
preprocessing over ℕ, raw frames `5, 6, 7`. The first call fills the deque
with `[5, 5]`, every feature has 2 frames, the final deque has 2 frames,
and a call on a full deque evicts the oldest frame. -/
theorem transform_frame_deque_invariant_witness :
    (0 < 2) ∧
    (((runTransform 2 (fun n : ℕ => n) [] (5 :: [6, 7])).2.head? =
        some (List.replicate 2 5))
     ∧ (∀ feat ∈ (runTransform 2 (fun n : ℕ => n) [] (5 :: [6, 7])).2, feat.length = 2)
     ∧ ((runTransform 2 (fun n : ℕ => n) [] (5 :: [6, 7])).1.length = 2)
     ∧ (∀ (fs : List ℕ) (x : ℕ), fs.length = 2 →
          (transformStep 2 (fun n : ℕ => n) fs x).1 = fs.drop 1 ++ [x])) :=
  ⟨by decide, transform_frame_deque_invariant 2 (by decide) (fun n : ℕ => n) 5 [6, 7]⟩

end DQN
